import Mathlib

/-
Verification development for the realmeta museum-scanning core.

Shallow embedding of:
  - src/core/geolocation_utils.py   (geofence evaluator, distance messages)
  - src/embeddings/mobilenet_engine.py (fingerprints, similarity scoring)
  - src/api/views.py::scan_artwork_combined (scan resolver pipeline)

Numeric values are modelled with exact rationals (Python floats idealized
as real arithmetic); the external geodesic distance library (geopy) is
modelled as an oracle function passed to the geofence evaluator.
-/

namespace RealMeta

/-! ## Geofence evaluator — src/core/geolocation_utils.py -/

/-- Python truthiness of an optional numeric argument, as tested by
`not all([user_lat, user_lon, artwork_lat, artwork_lon])`:
`None` and `0.0` are falsy, every other float is truthy. -/
def truthy : Option ℚ → Bool
  | none => false
  | some x => x != 0

/-- Embedding of `check_geofence(user_lat, user_lon, artwork_lat, artwork_lon,
radius_meters)`.  `geo` is the geodesic-distance oracle standing for
`geopy.distance.geodesic(...).meters`.  If any coordinate argument is falsy the
function returns `(False, None)`; otherwise it computes the distance and
returns `(distance <= radius_meters, distance)`. -/
def check_geofence (geo : ℚ → ℚ → ℚ → ℚ → ℚ)
    (user_lat user_lon artwork_lat artwork_lon : Option ℚ)
    (radius_meters : ℚ) : Bool × Option ℚ :=
  if truthy user_lat && truthy user_lon && truthy artwork_lat && truthy artwork_lon then
    let distance := geo (user_lat.getD 0) (user_lon.getD 0)
      (artwork_lat.getD 0) (artwork_lon.getD 0)
    (decide (distance ≤ radius_meters), some distance)
  else
    (false, none)

/-- Python `int(...)` on a float: truncation toward zero, modelled on ℚ. -/
def pyInt (q : ℚ) : ℤ :=
  if 0 ≤ q then Int.floor q else -Int.floor (-q)

/-- Round to the nearest integer, ties to even — the rounding used by
Python float formatting (modelled on the exact rational value). -/
def roundHalfEven (q : ℚ) : ℤ :=
  let f := Int.floor q
  let frac := q - f
  if frac < 1/2 then f
  else if 1/2 < frac then f + 1
  else if f % 2 = 0 then f else f + 1

/-- Python `f"{km:.1f}"`: format with one decimal digit. -/
def fmt1 (q : ℚ) : String :=
  let n := roundHalfEven (q * 10)
  toString (n / 10) ++ "." ++ toString (n % 10)

/-- Embedding of `get_distance_message(distance_meters, radius_meters)`:
the tiered human-readable proximity hint. -/
def get_distance_message (distance_meters radius_meters : ℚ) : String :=
  if distance_meters ≤ radius_meters then
    "✅ You\x27re within range! Scan now."
  else if distance_meters < 50 then
    "📍 You\x27re very close! Move a few more meters."
  else if distance_meters < 100 then
    "🚶 Walk " ++ toString (pyInt (distance_meters - radius_meters)) ++ "m closer to unlock."
  else if distance_meters < 500 then
    "🏛️ You\x27re " ++ toString (pyInt distance_meters) ++ "m away. Head to the artwork."
  else if distance_meters < 1000 then
    "🗺️ " ++ toString (pyInt distance_meters) ++ "m away. Navigate to the museum."
  else
    "🌍 " ++ fmt1 (distance_meters / 1000) ++ "km away. Visit the museum to scan."

/-! ## Fingerprints and similarity — src/embeddings/mobilenet_engine.py -/

/-- The three perceptual 16×16 hash codes combined by
`generate_perceptual_hash` into the string `"phash|dhash|whash"`,
modelled as bit lists. -/
structure HashTriple where
  phash : List Bool
  dhash : List Bool
  whash : List Bool
deriving DecidableEq, Repr

/-- An embedding dict `{'hash': str, 'histogram': list}` as produced by
`generate_embedding` and consumed by `compute_similarity`.  `hash = none`
models the falsy empty hash string `''`. -/
structure Embedding where
  hash : Option HashTriple
  histogram : List ℚ
deriving DecidableEq, Repr

/-- Hamming distance between two bit lists, as computed by the `-` operator
of `imagehash` hashes. -/
def hamming (a b : List Bool) : ℕ :=
  (List.zipWith (fun x y => x != y) a b).count true

/-- Embedding of `compute_hash_similarity(hash1, hash2)`: average the three
Hamming distances, normalize by 256 (a 16×16 hash), convert to similarity and
clamp into [0, 1]. -/
def compute_hash_similarity (h1 h2 : HashTriple) : ℚ :=
  let pdist : ℚ := hamming h1.phash h2.phash
  let ddist : ℚ := hamming h1.dhash h2.dhash
  let wdist : ℚ := hamming h1.whash h2.whash
  let avg_dist := (pdist + ddist + wdist) / 3
  let similarity := 1 - avg_dist / 256
  max 0 (min 1 similarity)

/-- Embedding of `compute_histogram_similarity(hist1, hist2)`: normalize each
histogram when its sum is positive, then take the histogram intersection
(sum of element-wise minima).  A length mismatch makes `np.minimum` raise;
the surrounding `except` then returns `0.0` (numpy singleton broadcasting is
not modelled — the engine only ever compares length-96 histograms). -/
def compute_histogram_similarity (hist1 hist2 : List ℚ) : ℚ :=
  if hist1.length = hist2.length then
    let h1 := if 0 < hist1.sum then hist1.map (· / hist1.sum) else hist1
    let h2 := if 0 < hist2.sum then hist2.map (· / hist2.sum) else hist2
    (List.zipWith min h1 h2).sum
  else 0

/-- The hash component of `compute_similarity`: `compute_hash_similarity`
when both hashes are truthy, else the initial value `0.0`. -/
def hashSimOf (e1 e2 : Embedding) : ℚ :=
  match e1.hash, e2.hash with
  | some a, some b => compute_hash_similarity a b
  | _, _ => 0

/-- Embedding of `compute_similarity(embedding1, embedding2)`: weighted
combination `0.6 * hash_sim + 0.4 * hist_sim` when both components are
comparable, the single comparable component at full weight otherwise, and
`0.0` when neither is comparable. -/
def compute_similarity (e1 e2 : Embedding) : ℚ :=
  let hash_sim := hashSimOf e1 e2
  let hist_sim :=
    if e1.histogram ≠ [] ∧ e2.histogram ≠ [] then
      compute_histogram_similarity e1.histogram e2.histogram
    else 0
  if e1.hash.isSome ∧ e2.hash.isSome ∧ e1.histogram ≠ [] ∧ e2.histogram ≠ [] then
    3/5 * hash_sim + 2/5 * hist_sim
  else if e1.hash.isSome ∧ e2.hash.isSome then
    hash_sim
  else if e1.histogram ≠ [] ∧ e2.histogram ≠ [] then
    hist_sim
  else 0

/-! ## Color histogram extraction — generate_color_histogram -/

/-- One channel's `np.histogram(channel, bins=32, range=(0, 256))[0]`: bin `v`
counts the pixel values `p` with `p div 8 = v` (bin width 8; uint8 pixel
values never reach the right edge 256). -/
def histChannel (pixels : List ℕ) : List ℕ :=
  (List.range 32).map fun v => pixels.countP fun p => p / 8 = v

/-- Embedding of `generate_color_histogram(image, bins=32)` on the
preprocessed RGB pixel list: the three 32-bin channel histograms are
concatenated and the concatenation is divided by its total sum. -/
def generate_color_histogram (img : List (ℕ × ℕ × ℕ)) : List ℚ :=
  let hist_r := (histChannel (img.map fun p => p.1)).map (Nat.cast : ℕ → ℚ)
  let hist_g := (histChannel (img.map fun p => p.2.1)).map (Nat.cast : ℕ → ℚ)
  let hist_b := (histChannel (img.map fun p => p.2.2)).map (Nat.cast : ℕ → ℚ)
  let hist := hist_r ++ hist_g ++ hist_b
  hist.map fun x => x / hist.sum

/-- A fingerprint as actually produced by `generate_embedding`: a present
hash triple and a nonempty histogram of nonnegative values summing to 1
(the global normalization performed by `generate_color_histogram`). -/
def ValidFp (e : Embedding) : Prop :=
  e.hash.isSome ∧ e.histogram ≠ [] ∧ (∀ x ∈ e.histogram, 0 ≤ x) ∧ e.histogram.sum = 1

/-! ## Scan resolver — src/api/views.py::scan_artwork_combined -/

/-- One entry of the `similarities` list built by the resolver:
artwork id, similarity score and geofence distance. -/
structure Scored where
  id : ℕ
  score : ℚ
  dist : ℚ
deriving DecidableEq, Repr

/-- The ordering realized by the stable Python sort
`similarities.sort(key=lambda x: x['similarity'], reverse=True)` on
position-tagged entries: strictly greater score first, equal scores kept in
original position order. -/
def sortKey (a b : ℕ × Scored) : Prop :=
  b.2.score < a.2.score ∨ (a.2.score = b.2.score ∧ a.1 ≤ b.1)

instance : DecidableRel sortKey := fun a b => by
  unfold sortKey; infer_instance

instance : IsTotal (ℕ × Scored) sortKey := by
  constructor
  intro a b
  rcases lt_trichotomy a.2.score b.2.score with h | h | h
  · exact Or.inr (Or.inl h)
  · rcases Nat.le_total a.1 b.1 with hn | hn
    · exact Or.inl (Or.inr ⟨h, hn⟩)
    · exact Or.inr (Or.inr ⟨h.symm, hn⟩)
  · exact Or.inl (Or.inl h)

instance : IsTrans (ℕ × Scored) sortKey := by
  constructor
  intro a b c hab hbc
  rcases hab with h1 | ⟨h1, h1n⟩
  · rcases hbc with h2 | ⟨h2, _⟩
    · exact Or.inl (h2.trans h1)
    · exact Or.inl (h2 ▸ h1)
  · rcases hbc with h2 | ⟨h2, h2n⟩
    · exact Or.inl (h1 ▸ h2)
    · exact Or.inr ⟨h1.trans h2, h1n.trans h2n⟩

/-- The resolver's sort on position-tagged entries: a stable descending
sort is exactly a sort by (score descending, original position ascending). -/
def sortScoredIdx (l : List Scored) : List (ℕ × Scored) :=
  List.insertionSort sortKey l.enum

/-- Embedding of `similarities.sort(key=..., reverse=True)`: the stable
descending sort of the candidate list. -/
def sortScored (l : List Scored) : List Scored :=
  (sortScoredIdx l).map Prod.snd

/-- The possible responses of `scan_artwork_combined` past input
validation (id+score pairs stand for the serialized artwork dicts). -/
inductive ScanResponse where
  | accessDenied (error message : String)
  | notFound (error message : String)
  | lowConfidence (error message : String) (similarity_score : ℚ)
      (suggested_artworks : List (ℕ × ℚ))
  | matched (artwork : ℕ) (similarity_score : ℚ) (distance_meters : ℚ)
      (confidence : String) (alternatives : List (ℕ × ℚ))
deriving DecidableEq, Repr

/-- Embedding of the matching stage of `scan_artwork_combined`
(views.py lines 278–325), applied to the sorted `similarities` list:
empty list → 404 `notFound`; top score below the 0.70 threshold →
`lowConfidence` with the top 3 candidates as suggestions; otherwise
`matched` with the best match, a confidence tier (`high` iff score > 0.85)
and the alternatives at positions 2–4. -/
def matchStage (sims : List Scored) : ScanResponse :=
  match sims with
  | [] => .notFound "No matching artwork found" "Cannot identify the artwork in the image"
  | best :: rest =>
    if best.score < 7/10 then
      .lowConfidence "Low confidence match" "Please take a clearer photo of the artwork"
        best.score (((best :: rest).take 3).map fun s => (s.id, s.score))
    else
      .matched best.id best.score best.dist
        (if 17/20 < best.score then "high" else "medium")
        ((rest.take 3).map fun s => (s.id, s.score))

/-- One catalogue row reaching the resolver's geofence loop: the query has
already excluded rows with null coordinates or a null embedding. -/
structure ArtworkRow where
  id : ℕ
  latitude : ℚ
  longitude : ℚ
  geofence_radius_meters : ℚ
  embedding : Embedding
deriving DecidableEq, Repr

/-- The `accessible_artworks` list of `scan_artwork_combined`: every
catalogue row whose geofence check succeeds, paired with its distance. -/
def accessibleArtworks (geo : ℚ → ℚ → ℚ → ℚ → ℚ) (user_lat user_lon : ℚ)
    (arts : List ArtworkRow) : List (ArtworkRow × ℚ) :=
  arts.filterMap fun a =>
    match check_geofence geo (some user_lat) (some user_lon)
      (some a.latitude) (some a.longitude) a.geofence_radius_meters with
    | (true, some d) => some (a, d)
    | _ => none

/-- Embedding of `scan_artwork_combined` past input validation: geofence
filter, similarity scoring against the accessible candidates, stable
descending sort, then the matching stage. -/
def scan_artwork_combined (geo : ℚ → ℚ → ℚ → ℚ → ℚ) (user_lat user_lon : ℚ)
    (arts : List ArtworkRow) (query : Embedding) : ScanResponse :=
  let accessible := accessibleArtworks geo user_lat user_lon arts
  if accessible.isEmpty then
    .accessDenied "No artworks within range" "You need to be near an artwork to scan it"
  else
    let sims := accessible.map fun ad =>
      { id := ad.1.id, score := compute_similarity query ad.1.embedding, dist := ad.2 : Scored }
    matchStage (sortScored sims)

/-! ## Theorems -/

/-- C9: with well-defined (truthy) coordinates the geofence evaluator
returns `isAccessible = true` exactly when the geodesic distance is at most
the radius, with the boundary inclusive, and it reports that distance. -/
theorem check_geofence_inclusive_boundary (geo : ℚ → ℚ → ℚ → ℚ → ℚ)
    (ulat ulon alat alon radius : ℚ)
    (h1 : ulat ≠ 0) (h2 : ulon ≠ 0) (h3 : alat ≠ 0) (h4 : alon ≠ 0) :
    ((check_geofence geo (some ulat) (some ulon) (some alat) (some alon) radius).1 = true
      ↔ geo ulat ulon alat alon ≤ radius)
    ∧ (check_geofence geo (some ulat) (some ulon) (some alat) (some alon) radius).2
      = some (geo ulat ulon alat alon) := by
  unfold check_geofence truthy
  simp [h1, h2, h3, h4]

/-- Witness for C9: at the boundary distance 50 = radius 50 the artwork is
accessible. -/
theorem check_geofence_inclusive_boundary_witness :
    ((40 : ℚ) ≠ 0 ∧ (-73 : ℚ) ≠ 0 ∧ (41 : ℚ) ≠ 0 ∧ (-74 : ℚ) ≠ 0)
    ∧ (((check_geofence (fun _ _ _ _ => 50) (some 40) (some (-73)) (some 41) (some (-74)) 50).1
          = true ↔ (50 : ℚ) ≤ 50)
      ∧ (check_geofence (fun _ _ _ _ => 50) (some 40) (some (-73)) (some 41) (some (-74)) 50).2
          = some 50) :=
  ⟨by norm_num,
    check_geofence_inclusive_boundary (fun _ _ _ _ => 50) 40 (-73) 41 (-74) 50
      (by norm_num) (by norm_num) (by norm_num) (by norm_num)⟩

/-- C10: whenever any of the four coordinate arguments is falsy (missing, or
the legitimate value 0.0), the evaluator returns `(False, None)` regardless
of the distance oracle and radius. -/
theorem check_geofence_falsy_defaults (geo : ℚ → ℚ → ℚ → ℚ → ℚ)
    (ulat ulon alat alon : Option ℚ) (radius : ℚ)
    (h : truthy ulat = false ∨ truthy ulon = false ∨ truthy alat = false
      ∨ truthy alon = false) :
    check_geofence geo ulat ulon alat alon radius = (false, none) := by
  unfold check_geofence
  rcases h with h | h | h | h <;> simp [h]

/-- Witness for C10: a user latitude of exactly 0.0 is treated as falsy and
denies access even though the oracle distance 0 is far inside the radius. -/
theorem check_geofence_falsy_defaults_witness :
    truthy (some 0) = false
    ∧ check_geofence (fun _ _ _ _ => 0) (some 0) (some 10) (some 20) (some 30) 1000000
      = (false, none) :=
  ⟨by simp [truthy],
    check_geofence_falsy_defaults (fun _ _ _ _ => 0) (some 0) (some 10) (some 20) (some 30)
      1000000 (Or.inl (by simp [truthy]))⟩

/-- C2 counterexample: with a missing user latitude the evaluator returns the
default result `(False, None)` — it does not fail with an
`InvalidLocationError`. -/
theorem check_geofence_missing_returns_default :
    check_geofence (fun _ _ _ _ => 10) none (some 45) (some 46) (some 7) 100
      = (false, none) := by
  simp [check_geofence, truthy]

/-- C2 amended: on a call with one or more missing coordinates the evaluator
silently returns the default `(False, None)` instead of failing. -/
theorem check_geofence_missing_default (geo : ℚ → ℚ → ℚ → ℚ → ℚ)
    (ulat ulon alat alon : Option ℚ) (radius : ℚ)
    (h : ulat = none ∨ ulon = none ∨ alat = none ∨ alon = none) :
    check_geofence geo ulat ulon alat alon radius = (false, none) := by
  unfold check_geofence
  rcases h with h | h | h | h <;> subst h <;> simp [truthy]

/-- Witness for the amended C2. -/
theorem check_geofence_missing_default_witness :
    ((none : Option ℚ) = none ∨ (some (5 : ℚ)) = none ∨ (some (6 : ℚ)) = none
      ∨ (some (7 : ℚ)) = none)
    ∧ check_geofence (fun _ _ _ _ => 1) none (some 5) (some 6) (some 7) 200 = (false, none) :=
  ⟨Or.inl rfl,
    check_geofence_missing_default (fun _ _ _ _ => 1) none (some 5) (some 6) (some 7) 200
      (Or.inl rfl)⟩

/-- C1: on a non-empty sorted candidate list the matching stage returns
`lowConfidence` with the top-3 suggestions when the top score is below 0.70,
and otherwise `matched` with the best candidate, a confidence tier that is
"high" exactly when the score exceeds 0.85, and the alternatives taken from
positions 2–4. -/
theorem scan_match_stage_threshold (best : Scored) (rest : List Scored)
    (_hsorted : (best :: rest).Pairwise fun a b => b.score ≤ a.score) :
    (best.score < 7/10 →
      matchStage (best :: rest) =
        .lowConfidence "Low confidence match" "Please take a clearer photo of the artwork"
          best.score (((best :: rest).take 3).map fun s => (s.id, s.score)))
    ∧ (7/10 ≤ best.score →
      matchStage (best :: rest) =
        .matched best.id best.score best.dist
          (if 17/20 < best.score then "high" else "medium")
          ((rest.take 3).map fun s => (s.id, s.score))
      ∧ ((if 17/20 < best.score then "high" else "medium") = "high"
          ↔ 17/20 < best.score)) := by
  constructor
  · intro h
    simp only [matchStage]
    rw [if_pos h]
  · intro h
    simp only [matchStage]
    rw [if_neg (not_lt.mpr h)]
    refine ⟨rfl, ?_⟩
    by_cases h85 : (17 : ℚ)/20 < best.score
    · simp [h85]
    · simp [h85]

/-- Witness for C1: a single candidate with score 0.9 is matched with
confidence "high". -/
theorem scan_match_stage_threshold_witness :
    (7 : ℚ)/10 ≤ 9/10
    ∧ matchStage [⟨1, 9/10, 5⟩] = .matched 1 (9/10) 5 "high" [] := by
  refine ⟨by norm_num, ?_⟩
  have h := (scan_match_stage_threshold ⟨1, 9/10, 5⟩ [] (by simp)).2 (by norm_num)
  rw [h.1, if_pos (by norm_num : (17 : ℚ)/20 < 9/10)]
  rfl

/-- C5: the resolver's candidate ordering is a stable descending sort by
score: on position-tagged entries the output is sorted descending by score,
is a permutation of the input, and keeps equal-scored entries in their
original relative order; in particular scores [0.9, 0.95, 0.95] in catalogue
order [A, B, C] come out as [B, C, A]. -/
theorem resolver_sort_stable_descending :
    (∀ l : List Scored,
      (sortScoredIdx l).Pairwise (fun a b => b.2.score ≤ a.2.score)
      ∧ (sortScoredIdx l).Perm l.enum
      ∧ (sortScoredIdx l).Pairwise (fun a b => a.2.score = b.2.score → a.1 ≤ b.1))
    ∧ sortScored [⟨0, 9/10, 0⟩, ⟨1, 19/20, 0⟩, ⟨2, 19/20, 0⟩]
      = [⟨1, 19/20, 0⟩, ⟨2, 19/20, 0⟩, ⟨0, 9/10, 0⟩] := by
  constructor
  · intro l
    have hs : (sortScoredIdx l).Pairwise sortKey :=
      List.sorted_insertionSort sortKey l.enum
    refine ⟨hs.imp ?_, List.perm_insertionSort sortKey l.enum, hs.imp ?_⟩
    · intro a b hab
      rcases hab with h | ⟨h, _⟩
      · exact le_of_lt h
      · exact le_of_eq h.symm
    · intro a b hab heq
      rcases hab with h | ⟨_, hn⟩
      · exact absurd heq (ne_of_gt h)
      · exact hn
  · norm_num [sortScored, sortScoredIdx, List.insertionSort, List.orderedInsert,
      sortKey, List.enum, List.enumFrom]

/-- Witness for C5, instantiating the universally quantified part at a
concrete singleton candidate list. -/
theorem resolver_sort_stable_descending_witness :
    (sortScoredIdx [⟨0, 1, 0⟩]).Perm ([(⟨0, 1, 0⟩ : Scored)] : List Scored).enum :=
  (resolver_sort_stable_descending.1 [⟨0, 1, 0⟩]).2.1

/-- Helper: the Hamming distance of a bit list with itself is 0. -/
theorem hamming_self (a : List Bool) : hamming a a = 0 := by
  induction a with
  | nil => rfl
  | cons x xs ih =>
    simp only [hamming, List.zipWith_cons_cons, bne_self_eq_false] at *
    simpa using ih

/-- Helper: the hash similarity of a hash triple with itself is 1. -/
theorem compute_hash_similarity_self (t : HashTriple) :
    compute_hash_similarity t t = 1 := by
  simp [compute_hash_similarity, hamming_self]

/-- Helper: element-wise minimum of a list with itself. -/
theorem zipWith_min_self (l : List ℚ) : List.zipWith min l l = l := by
  induction l with
  | nil => rfl
  | cons x xs ih => simp [ih]

/-- Helper: the histogram intersection of a histogram of total mass 1 with
itself is 1. -/
theorem compute_histogram_similarity_self (h : List ℚ) (hsum : h.sum = 1) :
    compute_histogram_similarity h h = 1 := by
  unfold compute_histogram_similarity
  rw [if_pos rfl, hsum]
  rw [if_pos (by norm_num : (0 : ℚ) < 1)]
  simp [zipWith_min_self, hsum]

/-- C6: the combined similarity of any valid fingerprint with itself is
exactly 1. -/
theorem compute_similarity_self (e : Embedding) (h : ValidFp e) :
    compute_similarity e e = 1 := by
  obtain ⟨hh, hne, _hnn, hsum⟩ := h
  unfold compute_similarity
  rw [if_pos ⟨hh, hh, hne, hne⟩, if_pos ⟨hne, hne⟩]
  obtain ⟨t, ht⟩ := Option.isSome_iff_exists.mp hh
  have h1 : hashSimOf e e = 1 := by
    unfold hashSimOf
    rw [ht]
    exact compute_hash_similarity_self t
  rw [h1, compute_histogram_similarity_self e.histogram hsum]
  norm_num

/-- Witness for C6: a concrete valid fingerprint scores 1 against itself. -/
theorem compute_similarity_self_witness :
    ValidFp ⟨some ⟨[], [], []⟩, [1]⟩
    ∧ compute_similarity ⟨some ⟨[], [], []⟩, [1]⟩ ⟨some ⟨[], [], []⟩, [1]⟩ = 1 :=
  ⟨by norm_num [ValidFp],
    compute_similarity_self ⟨some ⟨[], [], []⟩, [1]⟩ (by norm_num [ValidFp])⟩

/-- Helper: the clamped hash similarity always lies in [0, 1]. -/
theorem compute_hash_similarity_bounds (a b : HashTriple) :
    0 ≤ compute_hash_similarity a b ∧ compute_hash_similarity a b ≤ 1 := by
  unfold compute_hash_similarity
  exact ⟨le_max_left _ _, max_le (by norm_num) (min_le_left _ _)⟩

/-- Helper: the hash component of `compute_similarity` lies in [0, 1]. -/
theorem hashSimOf_bounds (e1 e2 : Embedding) :
    0 ≤ hashSimOf e1 e2 ∧ hashSimOf e1 e2 ≤ 1 := by
  unfold hashSimOf
  cases e1.hash with
  | none => norm_num
  | some a =>
    cases e2.hash with
    | none => norm_num
    | some b => exact compute_hash_similarity_bounds a b

/-- Helper: the intersection of two element-wise nonnegative lists is
nonnegative. -/
theorem zipWith_min_sum_nonneg (l1 l2 : List ℚ)
    (h1 : ∀ x ∈ l1, 0 ≤ x) (h2 : ∀ x ∈ l2, 0 ≤ x) :
    0 ≤ (List.zipWith min l1 l2).sum := by
  induction l1 generalizing l2 with
  | nil => simp
  | cons x xs ih =>
    cases l2 with
    | nil => simp
    | cons y ys =>
      simp only [List.zipWith_cons_cons, List.sum_cons]
      have hx : 0 ≤ x := h1 x (by simp)
      have hy : 0 ≤ y := h2 y (by simp)
      have hrest := ih ys (fun z hz => h1 z (List.mem_cons_of_mem x hz))
        (fun z hz => h2 z (List.mem_cons_of_mem y hz))
      have : 0 ≤ min x y := le_min hx hy
      linarith

/-- Helper: the intersection is at most the mass of the left list when the
left list is element-wise nonnegative. -/
theorem zipWith_min_sum_le_left (l1 l2 : List ℚ) (h1 : ∀ x ∈ l1, 0 ≤ x) :
    (List.zipWith min l1 l2).sum ≤ l1.sum := by
  induction l1 generalizing l2 with
  | nil => simp
  | cons x xs ih =>
    cases l2 with
    | nil =>
      simp only [List.zipWith_nil_right, List.sum_nil, List.sum_cons]
      have := List.sum_nonneg (fun z hz => h1 z (List.mem_cons_of_mem x hz))
      have hx : 0 ≤ x := h1 x (by simp)
      linarith
    | cons y ys =>
      simp only [List.zipWith_cons_cons, List.sum_cons]
      have hmin : min x y ≤ x := min_le_left x y
      have hrest := ih ys (fun z hz => h1 z (List.mem_cons_of_mem x hz))
      linarith

/-- Helper: summing a list divided element-wise by a constant. -/
theorem sum_map_div (l : List ℚ) (s : ℚ) : (l.map (· / s)).sum = l.sum / s := by
  induction l with
  | nil => simp
  | cons x xs ih => simp [ih, add_div]

/-- Helper: the histogram intersection similarity is bounded in [0, 1] for
element-wise nonnegative histograms. -/
theorem compute_histogram_similarity_bounds (l1 l2 : List ℚ)
    (h1 : ∀ x ∈ l1, 0 ≤ x) (h2 : ∀ x ∈ l2, 0 ≤ x) :
    0 ≤ compute_histogram_similarity l1 l2 ∧ compute_histogram_similarity l1 l2 ≤ 1 := by
  unfold compute_histogram_similarity
  by_cases hlen : l1.length = l2.length
  · rw [if_pos hlen]
    set g1 := if 0 < l1.sum then l1.map (· / l1.sum) else l1 with hg1
    set g2 := if 0 < l2.sum then l2.map (· / l2.sum) else l2 with hg2
    have hng1 : ∀ x ∈ g1, 0 ≤ x := by
      rw [hg1]
      split
      · rename_i hpos
        intro x hx
        obtain ⟨y, hy, rfl⟩ := List.mem_map.mp hx
        exact div_nonneg (h1 y hy) (le_of_lt hpos)
      · exact h1
    have hng2 : ∀ x ∈ g2, 0 ≤ x := by
      rw [hg2]
      split
      · rename_i hpos
        intro x hx
        obtain ⟨y, hy, rfl⟩ := List.mem_map.mp hx
        exact div_nonneg (h2 y hy) (le_of_lt hpos)
      · exact h2
    have hsum1 : g1.sum ≤ 1 := by
      rw [hg1]
      split
      · rename_i hpos
        rw [sum_map_div, div_self (ne_of_gt hpos)]
      · rename_i hpos
        have := not_lt.mp hpos
        linarith
    refine ⟨zipWith_min_sum_nonneg g1 g2 hng1 hng2, ?_⟩
    exact (zipWith_min_sum_le_left g1 g2 hng1).trans hsum1
  · rw [if_neg hlen]
    norm_num

/-- C7: for every pair of valid fingerprints the combined similarity score
lies in [0, 1]. -/
theorem compute_similarity_bounded (e1 e2 : Embedding)
    (h1 : ValidFp e1) (h2 : ValidFp e2) :
    0 ≤ compute_similarity e1 e2 ∧ compute_similarity e1 e2 ≤ 1 := by
  obtain ⟨hh1, hne1, hnn1, _⟩ := h1
  obtain ⟨hh2, hne2, hnn2, _⟩ := h2
  unfold compute_similarity
  rw [if_pos ⟨hh1, hh2, hne1, hne2⟩, if_pos ⟨hne1, hne2⟩]
  obtain ⟨hha, hhb⟩ := hashSimOf_bounds e1 e2
  obtain ⟨hta, htb⟩ := compute_histogram_similarity_bounds e1.histogram e2.histogram hnn1 hnn2
  constructor <;> nlinarith

/-- Witness for C7 at a concrete pair of valid fingerprints. -/
theorem compute_similarity_bounded_witness :
    ValidFp ⟨some ⟨[true], [], []⟩, [1/2, 1/2]⟩
    ∧ ValidFp ⟨some ⟨[false], [], []⟩, [1]⟩
    ∧ 0 ≤ compute_similarity ⟨some ⟨[true], [], []⟩, [1/2, 1/2]⟩ ⟨some ⟨[false], [], []⟩, [1]⟩
    ∧ compute_similarity ⟨some ⟨[true], [], []⟩, [1/2, 1/2]⟩ ⟨some ⟨[false], [], []⟩, [1]⟩ ≤ 1 := by
  have hv1 : ValidFp ⟨some ⟨[true], [], []⟩, [1/2, 1/2]⟩ := by
    refine ⟨by simp, by simp, ?_, by norm_num⟩
    intro x hx
    simp only [List.mem_cons, List.not_mem_nil, or_false] at hx
    rcases hx with h | h <;> rw [h] <;> norm_num
  have hv2 : ValidFp ⟨some ⟨[false], [], []⟩, [1]⟩ := by
    refine ⟨by simp, by simp, ?_, by norm_num⟩
    intro x hx
    simp only [List.mem_cons, List.not_mem_nil, or_false] at hx
    rw [hx]
    norm_num
  obtain ⟨ha, hb⟩ := compute_similarity_bounded ⟨some ⟨[true], [], []⟩, [1/2, 1/2]⟩
    ⟨some ⟨[false], [], []⟩, [1]⟩ hv1 hv2
  exact ⟨hv1, hv2, ha, hb⟩

/-- C8: when one or both fingerprints are degenerate (missing the hash or
the histogram), the scorer falls back to the single component available in
both with full weight, and to 0.0 when neither component is comparable. -/
theorem compute_similarity_degenerate (e1 e2 : Embedding)
    (hdeg : e1.hash = none ∨ e2.hash = none ∨ e1.histogram = [] ∨ e2.histogram = []) :
    compute_similarity e1 e2 =
      if e1.hash.isSome ∧ e2.hash.isSome then hashSimOf e1 e2
      else if e1.histogram ≠ [] ∧ e2.histogram ≠ [] then
        compute_histogram_similarity e1.histogram e2.histogram
      else 0 := by
  have hnot : ¬(e1.hash.isSome ∧ e2.hash.isSome ∧ e1.histogram ≠ [] ∧ e2.histogram ≠ []) := by
    rcases hdeg with h | h | h | h <;> simp [h]
  unfold compute_similarity
  rw [if_neg hnot]
  by_cases hh : e1.hash.isSome ∧ e2.hash.isSome
  · rw [if_pos hh, if_pos hh]
  · rw [if_neg hh, if_neg hh]
    by_cases ht : e1.histogram ≠ [] ∧ e2.histogram ≠ []
    · rw [if_pos ht, if_pos ht]
    · rw [if_neg ht, if_neg ht]

/-- Witness for C8: a fingerprint without a hash compared against a full
fingerprint reduces to the histogram similarity at full weight. -/
theorem compute_similarity_degenerate_witness :
    compute_similarity ⟨none, [1]⟩ ⟨some ⟨[true], [true], [true]⟩, [1]⟩
      = compute_histogram_similarity [1] [1] := by
  have h := compute_similarity_degenerate ⟨none, [1]⟩ ⟨some ⟨[true], [true], [true]⟩, [1]⟩
    (Or.inl rfl)
  rw [h]
  norm_num

/-- C4 counterexample: when the geofence-accessible subset is empty the
combined-scan resolver returns one fixed response — identical for a nearest
candidate 100 m away and one 900 m away, so it carries no nearest distance —
and its message is not the tiered proximity hint of `get_distance_message`. -/
theorem scan_no_targets_fixed_message :
    scan_artwork_combined (fun _ _ _ _ => 100) 1 1 [⟨7, 2, 2, 50, ⟨none, []⟩⟩] ⟨none, []⟩
      = .accessDenied "No artworks within range" "You need to be near an artwork to scan it"
    ∧ scan_artwork_combined (fun _ _ _ _ => 900) 1 1 [⟨7, 2, 2, 50, ⟨none, []⟩⟩] ⟨none, []⟩
      = .accessDenied "No artworks within range" "You need to be near an artwork to scan it"
    ∧ "You need to be near an artwork to scan it" ≠ get_distance_message 100 50
    ∧ "You need to be near an artwork to scan it" ≠ get_distance_message 900 50 := by
  refine ⟨?_, ?_, ?_, ?_⟩
  · norm_num [scan_artwork_combined, accessibleArtworks, check_geofence, truthy]
  · norm_num [scan_artwork_combined, accessibleArtworks, check_geofence, truthy]
  · norm_num [get_distance_message, pyInt]
    decide
  · norm_num [get_distance_message, pyInt]
    decide

/-- C4 amended: when the geofence-accessible subset is empty the resolver
terminates with HTTP 403 carrying the fixed error and message strings (and
`access_denied`); it does not report the nearest candidate's distance nor a
tiered proximity hint. -/
theorem scan_no_targets_response (geo : ℚ → ℚ → ℚ → ℚ → ℚ)
    (user_lat user_lon : ℚ) (arts : List ArtworkRow) (query : Embedding)
    (h : accessibleArtworks geo user_lat user_lon arts = []) :
    scan_artwork_combined geo user_lat user_lon arts query
      = .accessDenied "No artworks within range" "You need to be near an artwork to scan it" := by
  simp only [scan_artwork_combined, h]
  rfl

/-- Witness for the amended C4. -/
theorem scan_no_targets_response_witness :
    accessibleArtworks (fun _ _ _ _ => 300) 1 1 [⟨3, 4, 5, 50, ⟨none, []⟩⟩] = []
    ∧ scan_artwork_combined (fun _ _ _ _ => 300) 1 1 [⟨3, 4, 5, 50, ⟨none, []⟩⟩] ⟨none, []⟩
      = .accessDenied "No artworks within range" "You need to be near an artwork to scan it" := by
  have he : accessibleArtworks (fun _ _ _ _ => (300 : ℚ)) 1 1 [⟨3, 4, 5, 50, ⟨none, []⟩⟩] = [] := by
    norm_num [accessibleArtworks, check_geofence, truthy]
  exact ⟨he, scan_no_targets_response (fun _ _ _ _ => 300) 1 1 [⟨3, 4, 5, 50, ⟨none, []⟩⟩]
    ⟨none, []⟩ he⟩

/-- Helper: an indicator summed over `range n` vanishes when the hot index
is out of range. -/
theorem indicator_range_sum_zero (n k : ℕ) (h : n ≤ k) :
    ((List.range n).map fun v => if k = v then 1 else 0).sum = 0 := by
  induction n with
  | zero => simp
  | succ m ih =>
    rw [List.range_succ, List.map_append, List.sum_append]
    have hne : k ≠ m := by omega
    simp [ih (by omega), hne]

/-- Helper: an indicator summed over `range n` is 1 when the hot index is in
range. -/
theorem indicator_range_sum_one (n k : ℕ) (hk : k < n) :
    ((List.range n).map fun v => if k = v then 1 else 0).sum = 1 := by
  induction n with
  | zero => omega
  | succ m ih =>
    rw [List.range_succ, List.map_append, List.sum_append]
    by_cases hkm : k = m
    · subst hkm
      simp [indicator_range_sum_zero k k le_rfl]
    · have hlt : k < m := by omega
      simp [ih hlt, hkm]

/-- Helper: mapped sums distribute over pointwise addition. -/
theorem sum_map_addN (l : List ℕ) (f g : ℕ → ℕ) :
    (l.map fun v => f v + g v).sum = (l.map f).sum + (l.map g).sum := by
  induction l with
  | nil => simp
  | cons a l ih =>
    simp only [List.map_cons, List.sum_cons, ih]
    omega

/-- Helper: every channel histogram has exactly 32 bins. -/
theorem histChannel_length (l : List ℕ) : (histChannel l).length = 32 := by
  simp [histChannel]

/-- Helper: the 32 bins of a channel histogram of uint8 pixel values sum to
the pixel count. -/
theorem histChannel_sum (l : List ℕ) (hb : ∀ p ∈ l, p < 256) :
    (histChannel l).sum = l.length := by
  induction l with
  | nil => simp [histChannel]
  | cons a l ih =>
    unfold histChannel at *
    simp only [List.countP_cons, decide_eq_true_eq]
    rw [sum_map_addN (List.range 32) (fun v => l.countP fun p => p / 8 = v)
      (fun v => if a / 8 = v then 1 else 0)]
    have ha : a / 8 < 32 := by
      have := hb a (by simp)
      omega
    rw [ih (fun p hp => hb p (List.mem_cons_of_mem a hp)),
      indicator_range_sum_one 32 (a / 8) ha]
    simp

/-- Helper: slice sums of a concatenation of three 32-element channel lists
of equal mass `n`, globally normalized by the total mass `3n`. -/
theorem normalized_concat_slices (hr hg hb : List ℚ) (n : ℚ)
    (hrl : hr.length = 32) (hgl : hg.length = 32) (hbl : hb.length = 32)
    (hrs : hr.sum = n) (hgs : hg.sum = n) (hbs : hb.sum = n) (hn : 0 < n) :
    ((hr ++ hg ++ hb).map fun x => x / (hr ++ hg ++ hb).sum).length = 96
    ∧ ((hr ++ hg ++ hb).map fun x => x / (hr ++ hg ++ hb).sum).sum = 1
    ∧ (((hr ++ hg ++ hb).map fun x => x / (hr ++ hg ++ hb).sum).take 32).sum = 1/3
    ∧ ((((hr ++ hg ++ hb).map fun x => x / (hr ++ hg ++ hb).sum).drop 32).take 32).sum = 1/3
    ∧ (((hr ++ hg ++ hb).map fun x => x / (hr ++ hg ++ hb).sum).drop 64).sum = 1/3 := by
  have hsum : (hr ++ hg ++ hb).sum = 3 * n := by
    rw [List.sum_append, List.sum_append, hrs, hgs, hbs]
    ring
  have hn3 : (3 : ℚ) * n ≠ 0 := by positivity
  have hthird : n / (3 * n) = 1/3 := by
    rw [div_eq_div_iff hn3 (by norm_num)]
    ring
  refine ⟨?_, ?_, ?_, ?_, ?_⟩
  · simp [hrl, hgl, hbl]
  · rw [hsum, sum_map_div, hsum, div_self hn3]
  · rw [hsum, ← List.map_take]
    have ht : (hr ++ hg ++ hb).take 32 = hr := by
      rw [List.append_assoc, ← hrl, List.take_left]
    rw [ht, sum_map_div, hrs, hthird]
  · rw [hsum, ← List.map_drop, ← List.map_take]
    have hd : (hr ++ hg ++ hb).drop 32 = hg ++ hb := by
      rw [List.append_assoc, ← hrl, List.drop_left]
    rw [hd]
    have ht : (hg ++ hb).take 32 = hg := by
      rw [← hgl, List.take_left]
    rw [ht, sum_map_div, hgs, hthird]
  · rw [hsum, ← List.map_drop]
    have hd : (hr ++ hg ++ hb).drop 64 = hb := by
      have hlen : (hr ++ hg).length = 64 := by simp [hrl, hgl]
      rw [← hlen, List.drop_left]
    rw [hd, sum_map_div, hbs, hthird]

/-- C3 amended: for every nonempty uint8 image, the extracted color
histogram has 96 entries (32 bins per channel), is globally normalized so
that the full concatenation sums to 1, and each channel's 32-bin slice sums
to exactly 1/3 (not 1). -/
theorem generate_color_histogram_global_normalization (img : List (ℕ × ℕ × ℕ))
    (hne : img ≠ [])
    (hb : ∀ p ∈ img, p.1 < 256 ∧ p.2.1 < 256 ∧ p.2.2 < 256) :
    (generate_color_histogram img).length = 96
    ∧ (generate_color_histogram img).sum = 1
    ∧ ((generate_color_histogram img).take 32).sum = 1/3
    ∧ (((generate_color_histogram img).drop 32).take 32).sum = 1/3
    ∧ ((generate_color_histogram img).drop 64).sum = 1/3 := by
  have hcast : ∀ l : List ℕ, (∀ p ∈ l, p < 256) →
      ((histChannel l).map (Nat.cast : ℕ → ℚ)).sum = (l.length : ℚ) := by
    intro l hl
    rw [← Nat.cast_list_sum, histChannel_sum l hl]
  have hR : ∀ p ∈ img.map (fun p => p.1), p < 256 := by
    intro p hp
    obtain ⟨q, hq, rfl⟩ := List.mem_map.mp hp
    exact (hb q hq).1
  have hG : ∀ p ∈ img.map (fun p => p.2.1), p < 256 := by
    intro p hp
    obtain ⟨q, hq, rfl⟩ := List.mem_map.mp hp
    exact (hb q hq).2.1
  have hB : ∀ p ∈ img.map (fun p => p.2.2), p < 256 := by
    intro p hp
    obtain ⟨q, hq, rfl⟩ := List.mem_map.mp hp
    exact (hb q hq).2.2
  have hnpos : (0 : ℚ) < img.length := by
    have := List.length_pos.mpr hne
    exact_mod_cast this
  simp only [generate_color_histogram]
  exact normalized_concat_slices _ _ _ (img.length : ℚ)
    (by simp [histChannel_length]) (by simp [histChannel_length]) (by simp [histChannel_length])
    (by rw [hcast _ hR, List.length_map]) (by rw [hcast _ hG, List.length_map])
    (by rw [hcast _ hB, List.length_map]) hnpos

/-- C3 counterexample: on the one-pixel black image the first channel's
32-bin slice of the extracted histogram sums to 1/3, not 1 — the
normalization is global, not per channel. -/
theorem generate_color_histogram_channel_not_unit :
    ((generate_color_histogram [(0, 0, 0)]).take 32).sum = 1/3
    ∧ ((1 : ℚ)/3) ≠ 1 := by
  constructor
  · norm_num [generate_color_histogram, histChannel, List.range_succ, List.countP,
      List.countP.go]
  · norm_num

/-- Witness for the amended C3 at the one-pixel black image. -/
theorem generate_color_histogram_global_normalization_witness :
    ([((0 : ℕ), (0 : ℕ), (0 : ℕ))] ≠ [])
    ∧ (generate_color_histogram [(0, 0, 0)]).length = 96
    ∧ (generate_color_histogram [(0, 0, 0)]).sum = 1
    ∧ ((generate_color_histogram [(0, 0, 0)]).take 32).sum = 1/3 := by
  have h := generate_color_histogram_global_normalization [(0, 0, 0)] (by simp)
    (by intro p hp; simp only [List.mem_cons, List.not_mem_nil, or_false] at hp; simp [hp])
  exact ⟨by simp, h.1, h.2.1, h.2.2.1⟩

end RealMeta
